import Mathlib

/-
Verification of combine_atlases.py: a one-shot batch tool that composites a
tileset atlas and a 16x16 bitmap font atlas into a single output image.
Images are modelled as total pixel functions with explicit width and height;
the program body is modelled as the ordered trace of PIL paste operations it
performs, folded over a freshly created transparent canvas.  Paste offsets are
integers because the source computes last_col = tiles_per_row - 1, which is
negative when tiles_per_row = 0.
-/

/-- RGBA pixel: four channels. -/
structure Pixel where
  r : Nat
  g : Nat
  b : Nat
  a : Nat
deriving DecidableEq

/-- An image: a width, a height and a total pixel function; coordinates outside
the width/height rectangle are meaningless junk. -/
structure Img where
  width : Nat
  height : Nat
  pix : Nat → Nat → Pixel

/-- The fully transparent pixel (0,0,0,0) PIL uses for fresh RGBA canvases and
for regions cropped outside the source image. -/
def transparent : Pixel := ⟨0, 0, 0, 0⟩

/-- The opaque white pixel (255,255,255,255). -/
def white : Pixel := ⟨255, 255, 255, 255⟩

/-- Configuration constant TILE_SIZE = 12 from the source. -/
def TILE_SIZE : Nat := 12

/-- Configuration constant SPACING = 1 from the source. -/
def SPACING : Nat := 1

/-- Configuration constant FONT_GRID = 16 from the source. -/
def FONT_GRID : Nat := 16

/-- Configuration constant ROWS_TO_ADD = 2 from the source. -/
def ROWS_TO_ADD : Nat := 2

/-- PIL Image.paste with an integer offset and no mask: source pixels, alpha
included, overwrite the destination inside the rectangle, clipped to the
destination bounds. -/
def paste (dst src : Img) (px py : Int) : Img :=
  ⟨dst.width, dst.height, fun x y =>
    if px ≤ (x : Int) ∧ (x : Int) < px + src.width ∧
        py ≤ (y : Int) ∧ (y : Int) < py + src.height ∧
        x < dst.width ∧ y < dst.height
    then src.pix ((x : Int) - px).toNat ((y : Int) - py).toNat
    else dst.pix x y⟩

/-- PIL Image.crop with box (x0, y0, x1, y1): the result is (x1-x0)x(y1-y0);
pixels taken from outside the source image are zero, i.e. transparent. -/
def crop (img : Img) (x0 y0 x1 y1 : Nat) : Img :=
  ⟨x1 - x0, y1 - y0, fun x y =>
    if x < x1 - x0 ∧ y < y1 - y0 ∧ x0 + x < img.width ∧ y0 + y < img.height
    then img.pix (x0 + x) (y0 + y)
    else transparent⟩

/-- One paste operation of the trace: a source image and an integer offset. -/
structure PasteOp where
  src : Img
  x : Int
  y : Int

/-- Apply one paste operation to a destination image. -/
def applyPaste (dst : Img) (op : PasteOp) : Img := paste dst op.src op.x op.y

/-- tiles_per_row = (tileset_width + SPACING) // (TILE_SIZE + SPACING). -/
def tilesPerRow (tileset_width : Nat) : Nat :=
  (tileset_width + SPACING) / (TILE_SIZE + SPACING)

/-- new_height = tileset.height + ROWS_TO_ADD*(TILE_SIZE+SPACING) + SPACING. -/
def newHeight (tileset_height : Nat) : Nat :=
  tileset_height + ROWS_TO_ADD * (TILE_SIZE + SPACING) + SPACING

/-- font_x = (glyph_index % FONT_GRID) * TILE_SIZE. -/
def fontX (gi : Nat) : Nat := gi % FONT_GRID * TILE_SIZE

/-- font_y = (glyph_index // FONT_GRID) * TILE_SIZE. -/
def fontY (gi : Nat) : Nat := gi / FONT_GRID * TILE_SIZE

/-- dest_x = SPACING + col * (TILE_SIZE + SPACING). -/
def destX (col : Nat) : Nat := SPACING + col * (TILE_SIZE + SPACING)

/-- dest_y = start_y + row * (TILE_SIZE + SPACING). -/
def destY (start_y row : Nat) : Nat := start_y + row * (TILE_SIZE + SPACING)

/-- The paste performed by one iteration of the glyph loop body: crop the
12x12 block at (font_x, font_y) from the font atlas and paste it at
(dest_x, dest_y), as computed in the source. -/
def glyphOp (font : Img) (start_y gi row col : Nat) : PasteOp :=
  ⟨crop font (fontX gi) (fontY gi) (fontX gi + TILE_SIZE) (fontY gi + TILE_SIZE),
   (destX col : Int), (destY start_y row : Int)⟩

/-- The inner column loop over a list of column indices, threading glyph_index:
emits the pastes performed, in execution order.  The break on
glyph_index >= FONT_GRID*FONT_GRID leaves the remaining columns unvisited. -/
def innerOps (font : Img) (start_y row : Nat) : List Nat → Nat → List PasteOp × Nat
  | [], gi => ([], gi)
  | col :: cols, gi =>
    if FONT_GRID * FONT_GRID ≤ gi then ([], gi)
    else
      let rest := innerOps font start_y row cols (gi + 1)
      (glyphOp font start_y gi row col :: rest.1, rest.2)

/-- The outer glyph loop: rows 0 .. ROWS_TO_ADD-1 in order, each iterating the
columns 0 .. tiles_per_row-1, starting from glyph_index = 0.  Returns the paste
trace in execution order together with the final glyph_index. -/
def loopOps (font : Img) (start_y tpr : Nat) : List PasteOp × Nat :=
  (List.range ROWS_TO_ADD).foldl
    (fun st row =>
      let inner := innerOps font start_y row (List.range tpr) st.2
      (st.1 ++ inner.1, inner.2))
    ([], 0)

/-- The 12x12 solid white RGBA tile created at the end of the source. -/
def whiteTile : Img := ⟨TILE_SIZE, TILE_SIZE, fun _ _ => white⟩

/-- The final white-tile paste: last_col = tiles_per_row - 1 may be -1 in the
source, so the x offset is computed in the integers. -/
def whiteOp (start_y tpr : Nat) : PasteOp :=
  ⟨whiteTile,
   (SPACING : Int) + ((tpr : Int) - 1) * ((TILE_SIZE : Int) + (SPACING : Int)),
   (destY start_y (ROWS_TO_ADD - 1) : Int)⟩

/-- The whole transform: create the transparent canvas, paste the tileset at
the origin, paste the glyphs produced by the loop, paste the white tile; the
second component is the final glyph_index the source reports. -/
def combine (tileset font : Img) : Img × Nat :=
  let tpr := tilesPerRow tileset.width
  let canvas : Img := ⟨tileset.width, newHeight tileset.height, fun _ _ => transparent⟩
  let start_y := tileset.height + SPACING
  let loop := loopOps font start_y tpr
  let ops := ⟨tileset, 0, 0⟩ :: loop.1 ++ [whiteOp start_y tpr]
  (ops.foldl applyPaste canvas, loop.2)

/-- Observable events of one program run, in order. -/
inductive Event where
  | openImage (path : String)
  | saveImage (path : String) (img : Img)
  | print (line : String)
  | exitCode (n : Nat)

/-- The usage line printed on a wrong argument count. -/
def usageMsg : String := "Usage: combine_atlases.py <output.png>"

/-- Fixed input path of the tileset image. -/
def tilesetPath : String := "urizen_onebit_tileset__v2d0.png"

/-- Fixed input path of the font atlas image. -/
def fontPath : String := "cp437_12x12.png"

/-- First line printed on success. -/
def createdLine (path : String) (w h : Nat) : String :=
  "Created " ++ path ++ " (" ++ toString w ++ "x" ++ toString h ++ ")"

/-- Second line printed on success. -/
def addedLine (gi : Nat) : String :=
  "Added " ++ toString gi ++ " glyphs from font atlas in " ++
    toString ROWS_TO_ADD ++ " new rows"

/-- The whole program as a trace of observable events.  argv models sys.argv,
program name included, so the check is argv.length != 2; the two images are
the contents behind the two fixed input paths. -/
def run (argv : List String) (tileset font : Img) : List Event :=
  if argv.length ≠ 2 then
    [Event.print usageMsg, Event.exitCode 1]
  else
    let output_path := argv.getD 1 ""
    let result := combine tileset font
    [Event.openImage tilesetPath, Event.openImage fontPath,
     Event.saveImage output_path result.1,
     Event.print (createdLine output_path result.1.width result.1.height),
     Event.print (addedLine result.2),
     Event.exitCode 0]

/-- The glyph placement the spec describes for running index i: row i / tpr,
column i % tpr, in row-major order. -/
def specGlyphOp (font : Img) (start_y tpr i : Nat) : PasteOp :=
  glyphOp font start_y i (i / tpr) (i % tpr)

example : tilesPerRow 200 = 15 := by decide
example : newHeight 100 = 127 := by decide

/-- A paste operation covers pixel (x, y) when (x, y) lies in the rectangle of
its source image at its offset. -/
abbrev covers (op : PasteOp) (x y : Nat) : Prop :=
  op.x ≤ (x : Int) ∧ (x : Int) < op.x + op.src.width ∧
  op.y ≤ (y : Int) ∧ (y : Int) < op.y + op.src.height

lemma applyPaste_width (img : Img) (op : PasteOp) :
    (applyPaste img op).width = img.width := rfl

lemma applyPaste_height (img : Img) (op : PasteOp) :
    (applyPaste img op).height = img.height := rfl

lemma foldl_applyPaste_width :
    ∀ (ops : List PasteOp) (img : Img),
      (ops.foldl applyPaste img).width = img.width := by
  intro ops
  induction ops with
  | nil => intro img; rfl
  | cons op ops ih => intro img; rw [List.foldl_cons, ih, applyPaste_width]

lemma foldl_applyPaste_height :
    ∀ (ops : List PasteOp) (img : Img),
      (ops.foldl applyPaste img).height = img.height := by
  intro ops
  induction ops with
  | nil => intro img; rfl
  | cons op ops ih => intro img; rw [List.foldl_cons, ih, applyPaste_height]

lemma applyPaste_pix_of_not_covers (img : Img) (op : PasteOp) (x y : Nat)
    (h : ¬ covers op x y) : (applyPaste img op).pix x y = img.pix x y := by
  unfold applyPaste paste
  simp only
  rw [if_neg]
  intro hc
  exact h ⟨hc.1, hc.2.1, hc.2.2.1, hc.2.2.2.1⟩

lemma applyPaste_pix_of_covers (img : Img) (op : PasteOp) (x y : Nat)
    (h : covers op x y) (hx : x < img.width) (hy : y < img.height) :
    (applyPaste img op).pix x y =
      op.src.pix ((x : Int) - op.x).toNat ((y : Int) - op.y).toNat := by
  unfold applyPaste paste
  simp only
  rw [if_pos ⟨h.1, h.2.1, h.2.2.1, h.2.2.2, hx, hy⟩]

lemma foldl_applyPaste_pix_of_not_covered :
    ∀ (ops : List PasteOp) (img : Img) (x y : Nat),
      (∀ op ∈ ops, ¬ covers op x y) →
      (ops.foldl applyPaste img).pix x y = img.pix x y := by
  intro ops
  induction ops with
  | nil => intro img x y _; rfl
  | cons op ops ih =>
    intro img x y h
    rw [List.foldl_cons, ih _ x y (fun o ho => h o (List.mem_cons_of_mem _ ho)),
      applyPaste_pix_of_not_covers _ _ _ _ (h op (List.mem_cons_self _ _))]

lemma glyphOp_src_width (font : Img) (sy gi r c : Nat) :
    (glyphOp font sy gi r c).src.width = TILE_SIZE := by
  simp [glyphOp, crop]

lemma glyphOp_src_height (font : Img) (sy gi r c : Nat) :
    (glyphOp font sy gi r c).src.height = TILE_SIZE := by
  simp [glyphOp, crop]

lemma covers_glyphOp (font : Img) (sy gi r c x y : Nat) :
    covers (glyphOp font sy gi r c) x y ↔
      destX c ≤ x ∧ x < destX c + TILE_SIZE ∧
      destY sy r ≤ y ∧ y < destY sy r + TILE_SIZE := by
  unfold covers
  rw [glyphOp_src_width, glyphOp_src_height]
  show (destX c : Int) ≤ x ∧ (x : Int) < (destX c : Int) + (TILE_SIZE : Nat) ∧
    (destY sy r : Int) ≤ y ∧ (y : Int) < (destY sy r : Int) + (TILE_SIZE : Nat) ↔ _
  constructor
  · intro h
    exact ⟨by exact_mod_cast h.1, by exact_mod_cast h.2.1,
      by exact_mod_cast h.2.2.1, by exact_mod_cast h.2.2.2⟩
  · intro h
    exact ⟨by exact_mod_cast h.1, by exact_mod_cast h.2.1,
      by exact_mod_cast h.2.2.1, by exact_mod_cast h.2.2.2⟩

lemma innerOps_eq (font : Img) (sy r : Nat) :
    ∀ (n c0 gi : Nat), gi ≤ FONT_GRID * FONT_GRID →
    innerOps font sy r (List.range' c0 n) gi =
      ((List.range (min n (FONT_GRID * FONT_GRID - gi))).map
        (fun k => glyphOp font sy (gi + k) r (c0 + k)),
       min (gi + n) (FONT_GRID * FONT_GRID)) := by
  intro n
  induction n with
  | zero =>
    intro c0 gi hgi
    show innerOps font sy r [] gi = _
    unfold innerOps
    have h1 : min 0 (FONT_GRID * FONT_GRID - gi) = 0 := by omega
    have h2 : min (gi + 0) (FONT_GRID * FONT_GRID) = gi := by
      unfold FONT_GRID at *; omega
    rw [h1, h2]
    rfl
  | succ n ih =>
    intro c0 gi hgi
    rw [List.range'_succ]
    show innerOps font sy r (c0 :: List.range' (c0 + 1) n) gi = _
    unfold innerOps
    by_cases h : FONT_GRID * FONT_GRID ≤ gi
    · rw [if_pos h]
      have hgi' : gi = FONT_GRID * FONT_GRID := le_antisymm hgi h
      have h1 : min (n + 1) (FONT_GRID * FONT_GRID - gi) = 0 := by omega
      have h2 : min (gi + (n + 1)) (FONT_GRID * FONT_GRID) = gi := by omega
      rw [h1, h2]
      rfl
    · rw [if_neg h]
      have hlt : gi < FONT_GRID * FONT_GRID := lt_of_not_le h
      rw [ih (c0 + 1) (gi + 1) hlt]
      simp only
      have h1 : min (n + 1) (FONT_GRID * FONT_GRID - gi) =
          min n (FONT_GRID * FONT_GRID - (gi + 1)) + 1 := by omega
      have h2 : min (gi + (n + 1)) (FONT_GRID * FONT_GRID) =
          min (gi + 1 + n) (FONT_GRID * FONT_GRID) := by omega
      rw [h1, h2, List.range_succ_eq_map, List.map_cons, List.map_map]
      refine Prod.ext ?_ rfl
      show glyphOp font sy (gi + 0) r (c0 + 0) :: _ = glyphOp font sy gi r c0 :: _
      rw [Nat.add_zero, Nat.add_zero]
      refine congrArg _ ?_
      apply List.map_congr_left
      intro k _
      show glyphOp font sy (gi + 1 + k) r (c0 + 1 + k) =
        glyphOp font sy (gi + (k + 1)) r (c0 + (k + 1))
      rw [show gi + 1 + k = gi + (k + 1) by omega, show c0 + 1 + k = c0 + (k + 1) by omega]

lemma loopOps_eq (font : Img) (sy tpr : Nat) :
    loopOps font sy tpr =
      ((List.range (min (2 * tpr) 256)).map (specGlyphOp font sy tpr),
       min (2 * tpr) 256) := by
  have hF : FONT_GRID * FONT_GRID = 256 := rfl
  unfold loopOps
  rw [show List.range ROWS_TO_ADD = [0, 1] from rfl]
  simp only [List.foldl_cons, List.foldl_nil]
  rw [show List.range tpr = List.range' 0 tpr from List.range_eq_range' tpr]
  rw [innerOps_eq font sy 0 tpr 0 0 (Nat.zero_le _)]
  simp only
  rw [innerOps_eq font sy 1 tpr 0 (min (0 + tpr) (FONT_GRID * FONT_GRID))
    (min_le_right _ _)]
  simp only [hF, Nat.zero_add, Nat.sub_zero, List.nil_append]
  refine Prod.ext ?_ (by simp only; omega)
  simp only
  rcases le_or_lt tpr 256 with hle | hgt
  · have h0 : min tpr 256 = tpr := by omega
    rw [h0]
    have h1 : min (2 * tpr) 256 = tpr + min tpr (256 - tpr) := by omega
    rw [h1, List.range_add, List.map_append, List.map_map]
    refine congrArg₂ _ ?_ ?_
    · apply List.map_congr_left
      intro k hk
      rw [List.mem_range] at hk
      show glyphOp font sy k 0 k = specGlyphOp font sy tpr k
      unfold specGlyphOp
      rw [Nat.div_eq_of_lt hk, Nat.mod_eq_of_lt hk]
    · apply List.map_congr_left
      intro k hk
      rw [List.mem_range] at hk
      have hpos : 0 < tpr := by omega
      have hklt : k < tpr := by omega
      show glyphOp font sy (tpr + k) 1 k = specGlyphOp font sy tpr (tpr + k)
      unfold specGlyphOp
      have hd : (tpr + k) / tpr = 1 := by
        rw [Nat.add_comm, Nat.add_div_right k hpos, Nat.div_eq_of_lt hklt]
      have hm : (tpr + k) % tpr = k := by
        rw [Nat.add_comm, Nat.add_mod_right, Nat.mod_eq_of_lt hklt]
      rw [hd, hm]
  · have h0 : min tpr 256 = 256 := by omega
    rw [h0]
    have h1 : min tpr (256 - 256) = 0 := by omega
    have h2 : min (2 * tpr) 256 = 256 := by omega
    rw [h1, h2]
    simp only [List.range_zero, List.map_nil, List.append_nil]
    apply List.map_congr_left
    intro k hk
    rw [List.mem_range] at hk
    show glyphOp font sy k 0 k = specGlyphOp font sy tpr k
    unfold specGlyphOp
    rw [Nat.div_eq_of_lt (by omega), Nat.mod_eq_of_lt (by omega)]

lemma covers_whiteOp (sy tpr x y : Nat) (htpr : 1 ≤ tpr) :
    covers (whiteOp sy tpr) x y ↔
      destX (tpr - 1) ≤ x ∧ x < destX (tpr - 1) + TILE_SIZE ∧
      destY sy 1 ≤ y ∧ y < destY sy 1 + TILE_SIZE := by
  unfold covers whiteOp whiteTile destX destY TILE_SIZE SPACING ROWS_TO_ADD
  simp only
  omega

lemma loopOps_fst (font : Img) (sy tpr : Nat) :
    (loopOps font sy tpr).1 =
      (List.range (min (2 * tpr) 256)).map (specGlyphOp font sy tpr) := by
  rw [loopOps_eq]

lemma loopOps_snd (font : Img) (sy tpr : Nat) :
    (loopOps font sy tpr).2 = min (2 * tpr) 256 := by
  rw [loopOps_eq]

lemma mem_loopOps_fst {font : Img} {sy tpr : Nat} {op : PasteOp}
    (h : op ∈ (loopOps font sy tpr).1) :
    ∃ i, i < min (2 * tpr) 256 ∧ op = specGlyphOp font sy tpr i := by
  rw [loopOps_fst] at h
  obtain ⟨i, hi, rfl⟩ := List.mem_map.1 h
  exact ⟨i, List.mem_range.1 hi, rfl⟩

lemma not_covers_specGlyphOp_of_above (font : Img) (sy tpr i x y : Nat)
    (hy : y < sy) : ¬ covers (specGlyphOp font sy tpr i) x y := by
  unfold specGlyphOp
  rw [covers_glyphOp]
  unfold destY
  omega

lemma not_covers_whiteOp_of_above (sy tpr x y : Nat) (hy : y < sy) :
    ¬ covers (whiteOp sy tpr) x y := by
  intro h
  have hw := h.2.2.1
  unfold whiteOp destY ROWS_TO_ADD TILE_SIZE SPACING at hw
  simp only at hw
  omega

/-- The whole transform unfolded to its paste trace: the tileset paste, the
glyph-loop pastes, the white-tile paste, applied in order to the transparent
canvas. -/
lemma combine_eq (t f : Img) :
    combine t f =
      (((⟨t, 0, 0⟩ : PasteOp) ::
          (loopOps f (t.height + SPACING) (tilesPerRow t.width)).1 ++
          [whiteOp (t.height + SPACING) (tilesPerRow t.width)]).foldl applyPaste
        ⟨t.width, newHeight t.height, fun _ _ => transparent⟩,
       (loopOps f (t.height + SPACING) (tilesPerRow t.width)).2) := rfl

lemma foldl_append_single_pix (ops : List PasteOp) (op : PasteOp) (img : Img)
    (x y : Nat) (h : covers op x y) (hx : x < img.width) (hy : y < img.height) :
    ((ops ++ [op]).foldl applyPaste img).pix x y =
      op.src.pix ((x : Int) - op.x).toNat ((y : Int) - op.y).toNat := by
  rw [List.foldl_append, List.foldl_cons, List.foldl_nil]
  exact applyPaste_pix_of_covers _ _ _ _ h
    (by rw [foldl_applyPaste_width]; exact hx)
    (by rw [foldl_applyPaste_height]; exact hy)

/-- A concrete 200x100 test tileset with a non-constant pixel pattern. -/
def t200 : Img := ⟨200, 100, fun x y => ⟨x % 256, y % 256, 3, 200⟩⟩

/-- A concrete 192x192 test font atlas with a non-constant pixel pattern. -/
def f192 : Img := ⟨192, 192, fun x y => ⟨x % 256, 7, y % 256, 255⟩⟩

/-- A concrete 1676x10 test tileset, wide enough that the two appended rows
offer 258 destination cells, more than the 256 available glyphs. -/
def t1676 : Img := ⟨1676, 10, fun _ _ => ⟨5, 6, 7, 8⟩⟩

/-- C1: for every pair of input images, the output canvas has width equal to
the source tileset width and height equal to
tileset_height + ROWS_TO_ADD*(TILE_SIZE+SPACING) + SPACING, i.e.
tileset_height + 27 for the fixed constants. -/
theorem C1_output_dimensions (t f : Img) :
    (combine t f).1.width = t.width ∧
    (combine t f).1.height =
      t.height + ROWS_TO_ADD * (TILE_SIZE + SPACING) + SPACING ∧
    (combine t f).1.height = t.height + 27 := by
  refine ⟨?_, ?_, ?_⟩
  · rw [combine_eq]
    simp only
    rw [foldl_applyPaste_width]
  · rw [combine_eq]
    simp only
    rw [foldl_applyPaste_height]
    rfl
  · rw [combine_eq]
    simp only
    rw [foldl_applyPaste_height]
    show newHeight t.height = t.height + 27
    unfold newHeight ROWS_TO_ADD TILE_SIZE SPACING
    omega

/-- C2: for every tileset width W, tiles_per_row = floor((W + 1) / 13), i.e.
floor((W + SPACING) / (TILE_SIZE + SPACING)) with the fixed constants. -/
theorem C2_tiles_per_row (W : Nat) :
    tilesPerRow W = (W + SPACING) / (TILE_SIZE + SPACING) ∧
    tilesPerRow W = (W + 1) / 13 :=
  ⟨rfl, rfl⟩

/-- C3: the region [0, tileset_width) x [0, tileset_height) of the output is
pixel-identical, alpha included, to the source tileset: neither a glyph paste
nor the white-tile paste writes into it. -/
theorem C3_original_region_preserved (t f : Img) (x y : Nat)
    (hx : x < t.width) (hy : y < t.height) :
    (combine t f).1.pix x y = t.pix x y := by
  have hysy : y < t.height + SPACING := by unfold SPACING; omega
  have hg : ∀ op ∈ (loopOps f (t.height + SPACING) (tilesPerRow t.width)).1,
      ¬ covers op x y := by
    intro op hop
    obtain ⟨i, _, rfl⟩ := mem_loopOps_fst hop
    exact not_covers_specGlyphOp_of_above _ _ _ _ _ _ hysy
  have hw : ∀ op ∈ [whiteOp (t.height + SPACING) (tilesPerRow t.width)],
      ¬ covers op x y := by
    intro op hop
    rw [List.mem_singleton.1 hop]
    exact not_covers_whiteOp_of_above _ _ _ _ hysy
  have hcov : covers (⟨t, 0, 0⟩ : PasteOp) x y :=
    ⟨by simp, by simpa using hx, by simp, by simpa using hy⟩
  have hyc : y < newHeight t.height := by unfold newHeight; omega
  rw [combine_eq]
  simp only
  rw [List.foldl_append]
  rw [foldl_applyPaste_pix_of_not_covered _ _ x y hw]
  rw [List.foldl_cons]
  rw [foldl_applyPaste_pix_of_not_covered _ _ x y hg]
  rw [applyPaste_pix_of_covers ⟨t.width, newHeight t.height, fun _ _ => transparent⟩
    ⟨t, 0, 0⟩ x y hcov hx hyc]
  show t.pix ((x : Int) - 0).toNat ((y : Int) - 0).toNat = t.pix x y
  simp

/-- Witness for C3 at a concrete input. -/
theorem C3_witness :
    3 < t200.width ∧ 4 < t200.height ∧
    (combine t200 f192).1.pix 3 4 = t200.pix 3 4 :=
  ⟨by decide, by decide,
    C3_original_region_preserved t200 f192 3 4 (by decide) (by decide)⟩

/-- C6: after every run the bottom-right destination cell, at
x = 1 + (tiles_per_row - 1)*13 and y = tileset_height + 1 + 13, is opaque
white at every one of its pixels that lies inside the output image,
regardless of whether a glyph was placed there. -/
theorem C6_bottom_right_cell_white (t f : Img)
    (htpr : 1 ≤ tilesPerRow t.width) (dx dy : Nat)
    (hdx : dx < TILE_SIZE) (hdy : dy < TILE_SIZE)
    (hxW : 1 + (tilesPerRow t.width - 1) * 13 + dx < t.width) :
    (combine t f).1.pix (1 + (tilesPerRow t.width - 1) * 13 + dx)
      (t.height + 1 + 13 + dy) = white := by
  have hcov : covers (whiteOp (t.height + SPACING) (tilesPerRow t.width))
      (1 + (tilesPerRow t.width - 1) * 13 + dx) (t.height + 1 + 13 + dy) := by
    rw [covers_whiteOp _ _ _ _ htpr]
    unfold destX destY TILE_SIZE SPACING at *
    omega
  have hyc : t.height + 1 + 13 + dy < newHeight t.height := by
    unfold newHeight TILE_SIZE SPACING ROWS_TO_ADD at *
    omega
  rw [combine_eq]
  simp only
  rw [foldl_append_single_pix
    (⟨t, 0, 0⟩ :: (loopOps f (t.height + SPACING) (tilesPerRow t.width)).1)
    (whiteOp (t.height + SPACING) (tilesPerRow t.width))
    ⟨t.width, newHeight t.height, fun _ _ => transparent⟩ _ _ hcov hxW hyc]
  rfl

/-- Witness for C6 at a concrete input. -/
theorem C6_witness :
    1 ≤ tilesPerRow t200.width ∧ 0 < TILE_SIZE ∧ 11 < TILE_SIZE ∧
    1 + (tilesPerRow t200.width - 1) * 13 + 0 < t200.width ∧
    (combine t200 f192).1.pix (1 + (tilesPerRow t200.width - 1) * 13 + 0)
      (t200.height + 1 + 13 + 11) = white :=
  ⟨by decide, by decide, by decide, by decide,
    C6_bottom_right_cell_white t200 f192 (by decide) 0 11 (by decide) (by decide)
      (by decide)⟩

/-- C7: with an argument count other than one the program prints the usage
line, exits with status 1, and performs no file operation at all. -/
theorem C7_usage_error (argv : List String) (t f : Img)
    (h : argv.length ≠ 2) :
    run argv t f = [Event.print usageMsg, Event.exitCode 1] ∧
    (∀ p, Event.openImage p ∉ run argv t f) ∧
    (∀ p img, Event.saveImage p img ∉ run argv t f) := by
  have hr : run argv t f = [Event.print usageMsg, Event.exitCode 1] := by
    unfold run
    rw [if_pos h]
  refine ⟨hr, ?_, ?_⟩
  · intro p hp
    rw [hr] at hp
    simp at hp
  · intro p img hp
    rw [hr] at hp
    simp at hp

/-- Witness for C7 at a concrete input. -/
theorem C7_witness :
    ([] : List String).length ≠ 2 ∧
    (run [] t200 f192 = [Event.print usageMsg, Event.exitCode 1] ∧
      (∀ p, Event.openImage p ∉ run [] t200 f192) ∧
      (∀ p img, Event.saveImage p img ∉ run [] t200 f192)) :=
  ⟨by decide, C7_usage_error [] t200 f192 (by decide)⟩

/-- C8: for a tileset of width 200 and height 100, tiles_per_row is 15, the
output image is 200x127, and exactly 30 glyphs are copied. -/
theorem C8_scenario (t f : Img) (hw : t.width = 200) (hh : t.height = 100) :
    tilesPerRow t.width = 15 ∧
    (combine t f).1.width = 200 ∧
    (combine t f).1.height = 127 ∧
    (combine t f).2 = 30 := by
  refine ⟨?_, ?_, ?_, ?_⟩
  · rw [hw]
    decide
  · rw [combine_eq]
    simp only
    rw [foldl_applyPaste_width]
    exact hw
  · rw [combine_eq]
    simp only
    rw [foldl_applyPaste_height]
    show newHeight t.height = 127
    rw [hh]
    decide
  · rw [combine_eq]
    simp only
    rw [loopOps_snd, hw]
    decide

/-- Witness for C8 at a concrete input. -/
theorem C8_witness :
    t200.width = 200 ∧ t200.height = 100 ∧
    (tilesPerRow t200.width = 15 ∧
      (combine t200 f192).1.width = 200 ∧
      (combine t200 f192).1.height = 127 ∧
      (combine t200 f192).2 = 30) :=
  ⟨rfl, rfl, C8_scenario t200 f192 rfl rfl⟩

/-- C5: the i-th placed glyph has its 12x12 source block cropped from the font
atlas at (12*(i mod 16), 12*(i div 16)) and is pasted into the output at
(1 + (i mod tiles_per_row)*13, tileset_height + 1 + (i div tiles_per_row)*13). -/
theorem C5_glyph_source_and_destination (t f : Img)
    (htpr : 1 ≤ tilesPerRow t.width) (i : Nat)
    (hi : i < min (2 * tilesPerRow t.width) 256) :
    (loopOps f (t.height + SPACING) (tilesPerRow t.width)).1[i]? =
      some ⟨crop f (12 * (i % 16)) (12 * (i / 16))
              (12 * (i % 16) + 12) (12 * (i / 16) + 12),
            ((1 + (i % tilesPerRow t.width) * 13 : Nat) : Int),
            ((t.height + 1 + (i / tilesPerRow t.width) * 13 : Nat) : Int)⟩ := by
  rw [loopOps_fst, List.getElem?_map, List.getElem?_range hi]
  show some (specGlyphOp f (t.height + SPACING) (tilesPerRow t.width) i) = _
  unfold specGlyphOp glyphOp fontX fontY destX destY TILE_SIZE SPACING FONT_GRID
  rw [show i % 16 * 12 = 12 * (i % 16) from Nat.mul_comm _ _,
    show i / 16 * 12 = 12 * (i / 16) from Nat.mul_comm _ _]

/-- Witness for C5 at a concrete input. -/
theorem C5_witness :
    1 ≤ tilesPerRow t200.width ∧ 17 < min (2 * tilesPerRow t200.width) 256 ∧
    (loopOps f192 (t200.height + SPACING) (tilesPerRow t200.width)).1[17]? =
      some ⟨crop f192 (12 * (17 % 16)) (12 * (17 / 16))
              (12 * (17 % 16) + 12) (12 * (17 / 16) + 12),
            ((1 + (17 % tilesPerRow t200.width) * 13 : Nat) : Int),
            ((t200.height + 1 + (17 / tilesPerRow t200.width) * 13 : Nat) : Int)⟩ :=
  ⟨by decide, by decide,
    C5_glyph_source_and_destination t200 f192 (by decide) 17 (by decide)⟩

/-- One destination cell of the appended rows: cell of running index i lives
at column i mod tpr and row i div tpr. -/
abbrev inCellRect (sy tpr i x y : Nat) : Prop :=
  destX (i % tpr) ≤ x ∧ x < destX (i % tpr) + TILE_SIZE ∧
  destY sy (i / tpr) ≤ y ∧ y < destY sy (i / tpr) + TILE_SIZE

lemma cell_col_unique (c c' x : Nat) (h1 : destX c ≤ x)
    (h2 : x < destX c + TILE_SIZE) (h3 : destX c' ≤ x)
    (h4 : x < destX c' + TILE_SIZE) : c = c' := by
  unfold destX TILE_SIZE SPACING at *
  omega

lemma cell_row_unique (sy r r' y : Nat) (h1 : destY sy r ≤ y)
    (h2 : y < destY sy r + TILE_SIZE) (h3 : destY sy r' ≤ y)
    (h4 : y < destY sy r' + TILE_SIZE) : r = r' := by
  unfold destY TILE_SIZE SPACING at *
  omega

lemma inCellRect_inj (sy tpr i j x y : Nat) (hi : inCellRect sy tpr i x y)
    (hj : inCellRect sy tpr j x y) : i % tpr = j % tpr ∧ i / tpr = j / tpr :=
  ⟨cell_col_unique _ _ _ hi.1 hi.2.1 hj.1 hj.2.1,
   cell_row_unique _ _ _ _ hi.2.2.1 hi.2.2.2 hj.2.2.1 hj.2.2.2⟩

lemma eq_of_mod_div_eq (tpr i j : Nat) (hm : i % tpr = j % tpr)
    (hd : i / tpr = j / tpr) : i = j := by
  conv_lhs => rw [← Nat.div_add_mod i tpr]
  rw [hd, hm, Nat.div_add_mod]

lemma uncovered_appended_transparent (t f : Img) (x y : Nat)
    (hx : x < t.width) (hy1 : t.height ≤ y) (hy2 : y < newHeight t.height)
    (hcell : ∀ i < min (2 * tilesPerRow t.width) 256,
      ¬ inCellRect (t.height + SPACING) (tilesPerRow t.width) i x y)
    (hwhite : ¬ covers (whiteOp (t.height + SPACING) (tilesPerRow t.width)) x y) :
    (combine t f).1.pix x y = transparent := by
  have hnc : ∀ op ∈ (⟨t, 0, 0⟩ : PasteOp) ::
      (loopOps f (t.height + SPACING) (tilesPerRow t.width)).1 ++
      [whiteOp (t.height + SPACING) (tilesPerRow t.width)],
      ¬ covers op x y := by
    intro op hop
    rcases List.mem_append.1 hop with hg | hw
    · rcases List.mem_cons.1 hg with h0 | hgly
      · rw [h0]
        intro hcov
        have := hcov.2.2.2
        simp only at this
        omega
      · obtain ⟨i, hilt, rfl⟩ := mem_loopOps_fst hgly
        intro hcov
        rw [specGlyphOp, covers_glyphOp] at hcov
        exact hcell i hilt hcov
    · rw [List.mem_singleton.1 hw]
      exact hwhite
  rw [combine_eq]
  simp only
  rw [foldl_applyPaste_pix_of_not_covered _ _ x y hnc]

/-- C9: in the appended region every pixel not covered by a placed glyph cell
and not covered by the white-tile paste keeps the transparent creation value:
the spacing gaps, the spacing row above the appended rows, the bottom border
row, and any unfilled cells. -/
theorem C9_uncovered_appended_region_transparent (t f : Img) (x y : Nat)
    (hx : x < t.width) (hy1 : t.height ≤ y) (hy2 : y < newHeight t.height)
    (hcell : ∀ i < min (2 * tilesPerRow t.width) 256,
      ¬ inCellRect (t.height + SPACING) (tilesPerRow t.width) i x y)
    (hwhite : ¬ covers (whiteOp (t.height + SPACING) (tilesPerRow t.width)) x y) :
    (combine t f).1.pix x y = transparent :=
  uncovered_appended_transparent t f x y hx hy1 hy2 hcell hwhite

/-- Witness for C9 at a concrete input: the spacing row directly below the
original tileset. -/
theorem C9_witness :
    0 < t200.width ∧ t200.height ≤ 100 ∧ 100 < newHeight t200.height ∧
    (∀ i < min (2 * tilesPerRow t200.width) 256,
      ¬ inCellRect (t200.height + SPACING) (tilesPerRow t200.width) i 0 100) ∧
    ¬ covers (whiteOp (t200.height + SPACING) (tilesPerRow t200.width)) 0 100 ∧
    (combine t200 f192).1.pix 0 100 = transparent :=
  ⟨by decide, by decide, by decide, by decide, by decide,
    C9_uncovered_appended_region_transparent t200 f192 0 100 (by decide)
      (by decide) (by decide) (by decide) (by decide)⟩

/-- C4 counterexample: with tileset width 1676 we get tiles_per_row = 129, so
the appended rows offer 258 destination cells and two of them remain after the
256 glyphs run out; the claim says both stay fully transparent, but the
bottom-right one (running index 257, pixel (1665, 24) here) is painted opaque
white by the final white-tile paste. -/
theorem C4_counterexample :
    256 ≤ 257 ∧ 257 < 2 * tilesPerRow t1676.width ∧
    inCellRect (t1676.height + SPACING) (tilesPerRow t1676.width) 257 1665 24 ∧
    (combine t1676 f192).1.pix 1665 24 ≠ transparent := by
  refine ⟨by decide, by decide, by decide, ?_⟩
  decide

/-- C4 as amended: exactly min(tiles_per_row*2, 256) glyphs are copied, the
k-th placed glyph being glyph index k pasted at destination cell
(row k div tpr, column k mod tpr) in row-major order; the count printed on
stdout equals this number; and every remaining destination cell EXCEPT the
forced-white bottom-right cell stays fully transparent. -/
theorem C4_glyph_count_order_and_leftovers (t f : Img) :
    (combine t f).2 = min (2 * tilesPerRow t.width) 256 ∧
    (loopOps f (t.height + SPACING) (tilesPerRow t.width)).1 =
      (List.range (min (2 * tilesPerRow t.width) 256)).map
        (specGlyphOp f (t.height + SPACING) (tilesPerRow t.width)) ∧
    (∀ argv : List String, argv.length = 2 →
      Event.print (addedLine (min (2 * tilesPerRow t.width) 256)) ∈
        run argv t f) ∧
    (∀ i, 256 ≤ i → i < 2 * tilesPerRow t.width →
      i ≠ 2 * tilesPerRow t.width - 1 →
      ∀ x y, x < t.width →
        inCellRect (t.height + SPACING) (tilesPerRow t.width) i x y →
        (combine t f).1.pix x y = transparent) := by
  have hcount : (combine t f).2 = min (2 * tilesPerRow t.width) 256 := by
    rw [combine_eq]
    simp only
    rw [loopOps_snd]
  refine ⟨hcount, loopOps_fst _ _ _, ?_, ?_⟩
  · intro argv hargv
    unfold run
    rw [if_neg (by omega)]
    rw [← hcount]
    simp
  · intro i hi256 hi2tpr hinotlast x y hx hcell
    have htpr : 1 ≤ tilesPerRow t.width := by omega
    have hdiv : i / tilesPerRow t.width < 2 :=
      Nat.div_lt_of_lt_mul (by omega)
    have hy2 : y < newHeight t.height := by
      have := hcell.2.2.2
      unfold destY newHeight TILE_SIZE SPACING ROWS_TO_ADD at *
      have : i / tilesPerRow t.width ≤ 1 := by omega
      omega
    apply uncovered_appended_transparent t f x y hx ?hy1 hy2 ?hc ?hw
    case hy1 =>
      have := hcell.2.2.1
      unfold destY SPACING at this
      omega
    case hc =>
      intro j hjlt hcellj
      have hij := inCellRect_inj _ _ _ _ _ _ hcell hcellj
      have : i = j := eq_of_mod_div_eq _ _ _ hij.1 hij.2
      omega
    case hw =>
      intro hcov
      rw [covers_whiteOp _ _ _ _ htpr] at hcov
      have hcol : i % tilesPerRow t.width = tilesPerRow t.width - 1 :=
        cell_col_unique _ _ _ hcell.1 hcell.2.1 hcov.1 hcov.2.1
      have hrow : i / tilesPerRow t.width = 1 :=
        cell_row_unique _ _ _ _ hcell.2.2.1 hcell.2.2.2 hcov.2.2.1 hcov.2.2.2
      have hieq : i = tilesPerRow t.width * 1 + (tilesPerRow t.width - 1) := by
        conv_lhs => rw [← Nat.div_add_mod i (tilesPerRow t.width)]
        rw [hrow, hcol]
      omega

/-- Witness for C4 at a concrete input: leftover cell 256 (not the forced
bottom-right one) is transparent on the wide tileset. -/
theorem C4_witness :
    256 ≤ 256 ∧ 256 < 2 * tilesPerRow t1676.width ∧
    256 ≠ 2 * tilesPerRow t1676.width - 1 ∧ 1652 < t1676.width ∧
    inCellRect (t1676.height + SPACING) (tilesPerRow t1676.width) 256 1652 24 ∧
    (combine t1676 f192).1.pix 1652 24 = transparent :=
  ⟨by decide, by decide, by decide, by decide, by decide,
    (C4_glyph_count_order_and_leftovers t1676 f192).2.2.2 256 (by decide)
      (by decide) (by decide) 1652 24 (by decide) (by decide)⟩

/-- C10: the program is deterministic: the whole observable behaviour is a
pure function of the argument vector and the contents of the two input
images, so identical inputs give identical event traces, output image
included. -/
theorem C10_deterministic (argv1 argv2 : List String) (t1 t2 f1 f2 : Img)
    (ha : argv1 = argv2) (ht : t1 = t2) (hf : f1 = f2) :
    run argv1 t1 f1 = run argv2 t2 f2 := by
  subst ha ht hf
  rfl

/-- Witness for C10 at a concrete input. -/
theorem C10_witness :
    (["combine_atlases.py", "out.png"] : List String) =
      ["combine_atlases.py", "out.png"] ∧ t200 = t200 ∧ f192 = f192 ∧
    run ["combine_atlases.py", "out.png"] t200 f192 =
      run ["combine_atlases.py", "out.png"] t200 f192 :=
  ⟨rfl, rfl, rfl,
    C10_deterministic _ _ t200 t200 f192 f192 rfl rfl rfl⟩

